import Mathlib

/-!
Verification of the MEXAR knowledge-lifecycle engine.

This file gives a shallow embedding, in Lean 4, of the core modules of the
MEXAR retrieval-augmented question-answering backend:

* the data validator (`backend/modules/data_validator.py`),
* the faithfulness scorer (`backend/utils/faithfulness.py`),
* the reranker (`backend/utils/reranker.py`),
* the reasoning engine's guardrail and confidence computation
  (`backend/modules/reasoning_engine.py`),
* the prompt analyzer (`backend/modules/prompt_analyzer.py`),
* the source attributor (`backend/utils/source_attribution.py`),
* the compilation worker and knowledge compiler
  (`backend/workers/compilation_worker.py`,
  `backend/modules/knowledge_compiler.py`).

Python floats are modelled as rationals, Python strings as `List Char`,
database rows as explicit record states, and external services
(LLM, embedding model, cross-encoder) as oracle parameters.
-/

set_option autoImplicit false

namespace Mexar

/-! ### Text utilities

Character-level models of the Python string operations used by the code:
`str.split()`, `str.strip()`, `str.lower()`, substring containment (`in`),
`str.replace(old, new, 1)`, `"\n".join`, and the regex split
`re.split(r'(?<=[.!?])\s+', text)`.
-/

/-- Python whitespace for `str.split` / `str.strip` / regex `\s` (ASCII part). -/
def isPyWs (c : Char) : Bool :=
  c = ' ' || c = '\t' || c = '\n' || c = '\r' || c = Char.ofNat 11 || c = Char.ofNat 12

/-- Sentence-ending punctuation of the regex class `[.!?]`. -/
def isSentenceEnd (c : Char) : Bool :=
  c = '.' || c = '!' || c = '?'

/-- `str.lower()` (character-wise model). -/
def toLowerStr (s : List Char) : List Char := s.map Char.toLower

/-- Does `t` start with `pat`? -/
def startsWithChars : List Char → List Char → Bool
  | _, [] => true
  | [], _ :: _ => false
  | c :: cs, p :: ps => c = p && startsWithChars cs ps

/-- Python substring containment `pat in t` (empty pattern is contained). -/
def containsSub : List Char → List Char → Bool
  | t, [] => (fun _ => true) t
  | [], _ :: _ => false
  | c :: rest, p :: ps =>
      startsWithChars (c :: rest) (p :: ps) || containsSub rest (p :: ps)

/-- Python `t.replace(pat, rep, 1)`: replace the first occurrence only. -/
def replaceFirst : List Char → List Char → List Char → List Char
  | [], pat, rep => if startsWithChars [] pat then rep else []
  | c :: rest, pat, rep =>
      if startsWithChars (c :: rest) pat then rep ++ (c :: rest).drop pat.length
      else c :: replaceFirst rest pat rep

/-- Accumulator step for `wordsOf` (Python `str.split()` with no argument):
split on runs of whitespace, dropping empty words. -/
def wordsAux : List Char → List Char → List (List Char)
  | acc, [] => if acc = [] then [] else [acc.reverse]
  | acc, c :: rest =>
      if isPyWs c then
        if acc = [] then wordsAux [] rest else acc.reverse :: wordsAux [] rest
      else wordsAux (c :: acc) rest

/-- Python `s.split()`. -/
def wordsOf (s : List Char) : List (List Char) := wordsAux [] s

/-- Python `s.strip()`. -/
def stripChars (s : List Char) : List Char :=
  ((s.dropWhile isPyWs).reverse.dropWhile isPyWs).reverse

/-- Did the previous character end a sentence (`(?<=[.!?])` lookbehind)? -/
def prevEndsSentence : Option Char → Bool
  | some p => isSentenceEnd p
  | none => false

/-- State machine for `re.split(r'(?<=[.!?])\s+', text)`.
`inGap` is true while consuming a whitespace run that started a split match;
`prev` is the previously read character; `acc` is the current part reversed. -/
def splitRawAux : Bool → Option Char → List Char → List Char → List (List Char)
  | true, _, _, [] => [[]]
  | false, _, acc, [] => [acc.reverse]
  | true, _, _, c :: rest =>
      if isPyWs c then splitRawAux true (some c) [] rest
      else splitRawAux false (some c) [c] rest
  | false, prev, acc, c :: rest =>
      if isPyWs c && prevEndsSentence prev then
        acc.reverse :: splitRawAux true (some c) [] rest
      else splitRawAux false (some c) (c :: acc) rest

/-- `re.split(r'(?<=[.!?])\s+', text)`: raw sentence split, keeping empties. -/
def splitRaw (text : List Char) : List (List Char) :=
  splitRawAux false none [] text

/-- `SourceAttributor._split_sentences`: regex split, then strip each part and
drop empty parts. -/
def splitSentences (text : List Char) : List (List Char) :=
  ((splitRaw text).map stripChars).filter (fun s => s ≠ [])

/-- Python `content.split(chr(10))`: split on every newline, keeping empties. -/
def splitOnNlAux : List Char → List Char → List (List Char)
  | acc, [] => [acc.reverse]
  | acc, c :: rest =>
      if c = '\n' then acc.reverse :: splitOnNlAux [] rest
      else splitOnNlAux (c :: acc) rest

/-- Python `s.split(chr(10))`. -/
def splitOnNl (s : List Char) : List (List Char) := splitOnNlAux [] s

/-- Python `(chr(10)).join(parts)`. -/
def joinNl : List (List Char) → List Char
  | [] => []
  | [x] => x
  | x :: y :: xs => x ++ '\n' :: joinNl (y :: xs)

/-- Decimal digits of a natural number, via explicit fuel. -/
def natDigitsAux : ℕ → ℕ → List Char → List Char
  | 0, _, acc => acc
  | fuel + 1, n, acc =>
      let d := Char.ofNat (48 + n % 10)
      if n < 10 then d :: acc else natDigitsAux fuel (n / 10) (d :: acc)

/-- Decimal representation of a natural number as characters. -/
def natDigits (n : ℕ) : List Char := natDigitsAux (n + 1) n []

/-! ### Numeric utilities -/

/-- Python `round(x, 2)` modelled over the rationals. -/
def round2 (x : ℚ) : ℚ := ((round (x * 100) : ℤ) : ℚ) / 100

/-- Python `round(x, 3)` modelled over the rationals. -/
def round3 (x : ℚ) : ℚ := ((round (x * 1000) : ℤ) : ℚ) / 1000

/-- The specification's `clamp(x, lo, hi)`. -/
def clampQ (lo hi x : ℚ) : ℚ := min hi (max lo x)

/-! ### Data validator (`DataValidator.validate_sufficiency`) -/

/-- One parsed file as produced by `DataValidator.parse_file`: we keep the
fields `validate_sufficiency` reads (`entries_count`, `text`, presence of
`data`, presence of the `error` key, plus `file_name`/`format` copied into
the report). -/
structure ParsedSource where
  fileName : List Char
  fmt : List Char
  entriesCount : ℕ
  text : List Char
  hasData : Bool
  hasError : Bool
deriving DecidableEq, Repr

/-- The three kinds of entries appended to the `issues` list of
`validate_sufficiency` (the message text of each issue is irrelevant to
control flow; only membership is). -/
inductive SuffIssue
  | insufficientData
  | emptyFiles
  | parsingErrors
deriving DecidableEq, Repr

/-- The two kinds of entries appended to the `warnings` list. -/
inductive SuffWarning
  | fewEntries
  | mostlyUnstructured
deriving DecidableEq, Repr

/-- `sum(p.get("entries_count", 0) for p in parsed_data)`. -/
def totalEntries (ps : List ParsedSource) : ℕ :=
  (ps.map ParsedSource.entriesCount).sum

/-- `sum(len(p.get("text", "")) for p in parsed_data)`. -/
def totalChars (ps : List ParsedSource) : ℕ :=
  (ps.map (fun p => p.text.length)).sum

/-- Result record of `validate_sufficiency`. -/
structure ValidationResult where
  sufficient : Bool
  issues : List SuffIssue
  warnings : List SuffWarning
  statTotalFiles : ℕ
  statTotalEntries : ℕ
  statTotalCharacters : ℕ
  structureScore : ℚ
deriving DecidableEq, Repr

/-- `DataValidator.MIN_ENTRIES`. -/
def MIN_ENTRIES : ℕ := 20

/-- `DataValidator.MIN_CHARACTERS`. -/
def MIN_CHARACTERS : ℕ := 2000

/-- `DataValidator.validate_sufficiency`: data is sufficient when the
`issues` list stays empty. Issues are appended for (a) both thresholds
missed, (b) any zero-entry file, (c) any file carrying an `error` key. -/
def validateSufficiency (ps : List ParsedSource) : ValidationResult :=
  let te := totalEntries ps
  let tc := totalChars ps
  let entriesOk := MIN_ENTRIES ≤ te
  let charsOk := MIN_CHARACTERS ≤ tc
  let issues1 : List SuffIssue :=
    if ¬ entriesOk ∧ ¬ charsOk then [SuffIssue.insufficientData] else []
  let emptyFiles := ps.filter (fun p => p.entriesCount = 0)
  let issues2 : List SuffIssue :=
    issues1 ++ (if emptyFiles ≠ [] then [SuffIssue.emptyFiles] else [])
  let errorFiles := ps.filter (fun p => p.hasError)
  let issues3 : List SuffIssue :=
    issues2 ++ (if errorFiles ≠ [] then [SuffIssue.parsingErrors] else [])
  let warnings1 : List SuffWarning :=
    if te < MIN_ENTRIES * 2 then [SuffWarning.fewEntries] else []
  let structuredCount := (ps.filter (fun p => p.hasData)).length
  let structureScore : ℚ :=
    if ps = [] then 0 else (structuredCount : ℚ) / (ps.length : ℚ)
  let warnings2 : List SuffWarning :=
    warnings1 ++ (if structureScore < 1/2 then [SuffWarning.mostlyUnstructured] else [])
  { sufficient := issues3.isEmpty
    issues := issues3
    warnings := warnings2
    statTotalFiles := ps.length
    statTotalEntries := te
    statTotalCharacters := tc
    structureScore := structureScore }

/-- A corpus of exactly 20 entries in a single error-free non-empty CSV file. -/
def corpus20 : List ParsedSource :=
  [{ fileName := ("a.csv").toList, fmt := ("csv").toList, entriesCount := 20,
     text := ("x").toList, hasData := true, hasError := false }]

/-- A corpus of 19 entries and fewer than 2000 characters. -/
def corpus19 : List ParsedSource :=
  [{ fileName := ("a.csv").toList, fmt := ("csv").toList, entriesCount := 19,
     text := ("x").toList, hasData := true, hasError := false }]

/-! ### Faithfulness scorer (`FaithfulnessScorer.score`) -/

/-- `FaithfulnessResult` dataclass. -/
structure FaithfulnessResult where
  score : ℚ
  totalClaims : ℕ
  supportedClaims : ℕ
  unsupportedClaims : List (List Char)
deriving DecidableEq, Repr

/-- Oracle for the two LLM interactions of the scorer:
`extraction` models one `_extract_claims` LLM call together with its JSON
parsing (`none` = JSON failure, triggering the sentence-split fallback);
`support` models one `_is_supported` LLM call (an LLM error defaults the
oracle to `true`, the code's optimistic fallback). -/
structure LlmOracle where
  extraction : List Char → Option (List (List Char))
  support : List Char → List Char → Bool

/-- `FaithfulnessScorer._fallback_extract_claims`: sentence split, strip,
keep sentences longer than 20 characters, cap at 10. -/
def fallbackExtractClaims (answer : List Char) : List (List Char) :=
  (((splitRaw answer).map stripChars).filter (fun s => 20 < s.length)).take 10

/-- `FaithfulnessScorer._extract_claims`: LLM extraction on the first 2000
characters of the answer, keeping truthy entries; fallback on failure. -/
def extractClaims (o : LlmOracle) (answer : List Char) : List (List Char) :=
  match o.extraction (answer.take 2000) with
  | some cs => cs.filter (fun c => c ≠ [])
  | none => fallbackExtractClaims answer

/-- `FaithfulnessScorer.score`. The second component counts the LLM calls
the code performs on this control path (one extraction call plus one
verification call per claim). -/
def scoreFaithfulness (o : LlmOracle) (answer context : List Char) :
    FaithfulnessResult × ℕ :=
  if answer = [] ∨ context = [] then
    ({ score := 1, totalClaims := 0, supportedClaims := 0, unsupportedClaims := [] }, 0)
  else
    let claims := extractClaims o answer
    if claims = [] then
      ({ score := 1, totalClaims := 0, supportedClaims := 0, unsupportedClaims := [] }, 1)
    else
      let supported := (claims.filter (fun c => o.support c context)).length
      let unsupported := claims.filter (fun c => ¬ o.support c context)
      ({ score := round3 ((supported : ℚ) / (claims.length : ℚ))
         totalClaims := claims.length
         supportedClaims := supported
         unsupportedClaims := unsupported.take 5 },
       1 + claims.length)

/-- A trivial oracle used for concrete witnesses. -/
def oracleW : LlmOracle :=
  { extraction := fun _ => none, support := fun _ _ => true }

/-! ### Confidence computation (`ReasoningEngine._calculate_confidence`) -/

/-- The local `norm_rerank` of `_calculate_confidence`:
`min(1.0, max(0, (rerank_score + 10) / 20))`. -/
def normRerank (rerankScore : ℚ) : ℚ := min 1 (max 0 ((rerankScore + 10) / 20))

/-- The local `norm_similarity` of `_calculate_confidence`:
`min(1.0, top_similarity * 30)` (note: no lower clamp in the code). -/
def normSimilarity (topSimilarity : ℚ) : ℚ := min 1 (topSimilarity * 30)

/-- `ReasoningEngine._calculate_confidence`. -/
def calculateConfidence (topSimilarity rerankScore faithfulness : ℚ) : ℚ :=
  let nr := normRerank rerankScore
  let ns := normSimilarity topSimilarity
  let confidence := ns * (35/100) + nr * (30/100) + faithfulness * (25/100) + 10/100
  let adjusted :=
    if ns > 7/10 ∧ faithfulness > 8/10 then max confidence (75/100)
    else if ns < 3/10 then min confidence (45/100)
    else confidence
  round2 (min (95/100) (max (15/100) adjusted))

/-- The confidence formula as the specification words it (for comparison
with `calculateConfidence`): `0.35*clamp(top_rrf*30,0,1) +
0.30*clamp((top_rerank+10)/20,0,1) + 0.25*faithfulness + 0.10`, with the
floor-0.75 and cap-0.45 post-adjustments. -/
def specConfidenceAdjusted (t r f : ℚ) : ℚ :=
  let ns := clampQ 0 1 (t * 30)
  let nr := clampQ 0 1 ((r + 10) / 20)
  let raw := (35/100) * ns + (30/100) * nr + (25/100) * f + 10/100
  if ns > 7/10 ∧ f > 8/10 then max raw (75/100)
  else if ns < 3/10 then min raw (45/100)
  else raw

/-- Projection of a canned response of the reasoning engine to the fields
the claims inspect (`confidence` and `in_domain`). -/
structure CannedResponse where
  confidence : ℚ
  inDomain : Bool
deriving DecidableEq, Repr

/-- `ReasoningEngine._create_out_of_domain_response`: the literal
`"confidence": 0.1, "in_domain": False` of the returned dict. -/
def createOutOfDomainResponse (_domainScore : ℚ) : CannedResponse :=
  { confidence := 1/10, inDomain := false }

/-- `ReasoningEngine._create_no_results_response`: the literal
`"confidence": 0.2, "in_domain": True` of the returned dict. -/
def createNoResultsResponse : CannedResponse :=
  { confidence := 1/5, inDomain := true }

/-! ### Reranker (`Reranker.rerank`) -/

/-- A stored `DocumentChunk` row, restricted to the fields the retrieval
pipeline reads. -/
structure Chunk where
  id : ℕ
  content : List Char
  source : List Char
deriving DecidableEq, Repr

/-- `Reranker.rerank`. `modelAvailable` models `self.model` being loaded
(false when `sentence_transformers` is unavailable); `scores` models one
`model.predict` batch over the query–content pairs (`none` = the call
raised, triggering the same placeholder fallback). -/
def rerankChunks (modelAvailable : Bool) (scores : List Chunk → Option (List ℚ))
    (_query : List Char) (chunks : List Chunk) (topK : ℕ) : List (Chunk × ℚ) :=
  if chunks = [] then []
  else if modelAvailable = false then (chunks.take topK).map (fun c => (c, 1/2))
  else
    match scores chunks with
    | none => (chunks.take topK).map (fun c => (c, 1/2))
    | some ss =>
        let ranked := (chunks.zip ss).mergeSort (fun a b => decide (b.2 ≤ a.2))
        ranked.take topK

/-! ### Prompt analyzer (`PromptAnalyzer`) -/

/-- The analysis dict after `_ensure_fields` (all fields present). -/
structure Analysis where
  domain : List Char
  subDomains : List (List Char)
  personality : List Char
  constraints : List (List Char)
  suggestedName : List Char
  domainKeywords : List (List Char)
  tone : List Char
  capabilities : List (List Char)
deriving DecidableEq, Repr

/-- The JSON object returned by the LLM, before validation: any field may
be missing or `null`. -/
structure RawAnalysis where
  domain : Option (List Char)
  subDomains : Option (List (List Char))
  personality : Option (List Char)
  constraints : Option (List (List Char))
  suggestedName : Option (List Char)
  domainKeywords : Option (List (List Char))
  tone : Option (List Char)
  capabilities : Option (List (List Char))
deriving DecidableEq, Repr

/-- The `domain_defaults` table of `_expand_keywords`, key `medical`. -/
def medicalDefaults : List (List Char) :=
  (["health", "patient", "doctor", "treatment", "diagnosis", "symptoms",
    "medicine", "hospital", "disease", "therapy", "prescription", "clinic",
    "medical", "healthcare", "wellness", "condition", "care", "physician",
    "nurse", "medication"]).map String.toList

/-- The `domain_defaults` table of `_expand_keywords`, key `legal`. -/
def legalDefaults : List (List Char) :=
  (["law", "court", "legal", "attorney", "lawyer", "case", "contract",
    "rights", "litigation", "judge", "verdict", "lawsuit", "compliance",
    "regulation", "statute", "defendant", "plaintiff", "trial", "evidence",
    "testimony"]).map String.toList

/-- The `domain_defaults` table of `_expand_keywords`, key `cooking`. -/
def cookingDefaults : List (List Char) :=
  (["recipe", "cook", "ingredient", "food", "kitchen", "meal", "dish",
    "flavor", "cuisine", "bake", "chef", "cooking", "taste", "serve",
    "prepare", "dinner", "lunch", "breakfast", "snack", "dessert"]).map String.toList

/-- The `domain_defaults` table of `_expand_keywords`, key `technology`. -/
def technologyDefaults : List (List Char) :=
  (["software", "code", "programming", "computer", "system", "data",
    "network", "security", "cloud", "application", "development",
    "algorithm", "database", "API", "server", "hardware", "digital",
    "technology", "tech", "IT"]).map String.toList

/-- The `domain_defaults` table of `_expand_keywords`, key `finance`. -/
def financeDefaults : List (List Char) :=
  (["money", "investment", "bank", "finance", "budget", "tax", "stock",
    "credit", "loan", "savings", "financial", "accounting", "capital",
    "asset", "portfolio", "market", "trading", "insurance", "wealth",
    "income"]).map String.toList

/-- `domain_defaults.get(domain.lower())`, empty for unknown domains. -/
def domainDefaults (d : List Char) : List (List Char) :=
  if d = ("medical").toList then medicalDefaults
  else if d = ("legal").toList then legalDefaults
  else if d = ("cooking").toList then cookingDefaults
  else if d = ("technology").toList then technologyDefaults
  else if d = ("finance").toList then financeDefaults
  else []

/-- The padding loop of `_expand_keywords`: `for kw in defaults: if kw not
in keywords and len(keywords) < 20: keywords.append(kw)`. -/
def padFromDefaults (existing defaults : List (List Char)) : List (List Char) :=
  defaults.foldl (fun ks kw => if kw ∉ ks ∧ ks.length < 20 then ks ++ [kw] else ks)
    existing

/-- The final append of `_expand_keywords`: `if domain.lower() not in
[k.lower() for k in keywords]: keywords.append(domain)`. -/
def appendDomainIfMissing (ks : List (List Char)) (domain : List Char) :
    List (List Char) :=
  if toLowerStr domain ∉ ks.map toLowerStr then ks ++ [domain] else ks

/-- `PromptAnalyzer._expand_keywords`: pad the existing keywords from the
domain-defaults table while under 20 entries, then append the domain itself
when it is not already present case-insensitively, then truncate to 20. -/
def expandKeywords (existing : List (List Char)) (domain : List Char) :
    List (List Char) :=
  (appendDomainIfMissing
    (padFromDefaults existing (domainDefaults (toLowerStr domain))) domain).take 20

/-- `PromptAnalyzer._ensure_fields`: fill missing fields from defaults,
then expand `domain_keywords` when fewer than 10 were returned. -/
def ensureFields (r : RawAnalysis) : Analysis :=
  let domain := r.domain.getD (("general").toList)
  let kws := r.domainKeywords.getD []
  { domain := domain
    subDomains := r.subDomains.getD []
    personality := r.personality.getD (("helpful and professional").toList)
    constraints := r.constraints.getD []
    suggestedName := r.suggestedName.getD (("MEXAR Agent").toList)
    domainKeywords := if kws.length < 10 then expandKeywords kws domain else kws
    tone := r.tone.getD (("professional").toList)
    capabilities := r.capabilities.getD [] }

/-- The `domain_indicators` table of `_create_fallback_analysis`, in dict
insertion order. -/
def domainIndicators : List (List Char × List (List Char)) :=
  [(("medical").toList,
    (["medical", "doctor", "patient", "health", "hospital", "treatment"]).map String.toList),
   (("legal").toList,
    (["legal", "law", "attorney", "court", "contract", "rights"]).map String.toList),
   (("cooking").toList,
    (["cook", "recipe", "food", "chef", "kitchen", "ingredient"]).map String.toList),
   (("technology").toList,
    (["tech", "software", "code", "programming", "computer"]).map String.toList),
   (("finance").toList,
    (["finance", "money", "bank", "investment", "budget"]).map String.toList)]

/-- The detection loop of `_create_fallback_analysis`: first domain whose
indicator list meets the prompt's word list, else `general`. -/
def detectDomain (ws : List (List Char)) : List Char :=
  match domainIndicators.find? (fun di => di.2.any (fun ind => ind ∈ ws)) with
  | some di => di.1
  | none => ("general").toList

/-- Python `str.title()` (character-wise model): uppercase every letter
that follows a non-letter, lowercase the rest. -/
def titleAux : Bool → List Char → List Char
  | _, [] => []
  | prevAlpha, c :: rest =>
      (if c.isAlpha then (if prevAlpha then c.toLower else c.toUpper) else c)
        :: titleAux c.isAlpha rest

/-- Python `str.title()`. -/
def titleStr (s : List Char) : List Char := titleAux false s

/-- `PromptAnalyzer._create_fallback_analysis`. -/
def createFallbackAnalysis (systemPrompt : List Char) : Analysis :=
  let ws := wordsOf (toLowerStr systemPrompt)
  let detected := detectDomain ws
  { domain := detected
    subDomains := []
    personality := ("helpful assistant").toList
    constraints := [("Stay within knowledge base").toList, ("Be accurate").toList]
    suggestedName := ("MEXAR ").toList ++ titleStr detected ++ (" Agent").toList
    domainKeywords := expandKeywords [] detected
    tone := ("professional").toList
    capabilities := [("Answer questions").toList, ("Provide information").toList] }

/-- `PromptAnalyzer.analyze_prompt`: `llm` is the JSON-parsed LLM response
(`none` models an LLM failure or JSON parse error, which falls back to
lexical detection). -/
def analyzePrompt (llm : Option RawAnalysis) (systemPrompt : List Char) : Analysis :=
  match llm with
  | some r => ensureFields r
  | none => createFallbackAnalysis systemPrompt

/-- The raw LLM analysis used for the C8 counterexample: domain `medical`,
no keywords returned. -/
def rawMedical : RawAnalysis :=
  { domain := some (("medical").toList), subDomains := none, personality := none,
    constraints := none, suggestedName := none, domainKeywords := some [],
    tone := none, capabilities := none }

/-! ### Domain guardrail (`ReasoningEngine._check_guardrail`) -/

/-- Per-word contribution to `matches` in `_check_guardrail`: scan the
signature keywords in order; the first keyword fuzzy-matching above 0.75
adds 1, otherwise the first with substring containment in either direction
adds 0.5 (then the inner loop breaks). `fuzzy` models
`SequenceMatcher(None, word, kw).ratio()`. -/
def wordMatchScore (fuzzy : List Char → List Char → ℚ) (word : List Char) :
    List (List Char) → ℚ
  | [] => 0
  | kw :: rest =>
      if fuzzy word kw > 3/4 then 1
      else if containsSub kw word || containsSub word kw then 1/2
      else wordMatchScore fuzzy word rest

/-- The `bonus_matches` accumulation of `_check_guardrail`: +3 for a domain
substring hit, +2 per sub-domain hit, +1.5 per domain-keyword hit. -/
def guardrailBonus (ql : List Char) (pa : Analysis) : ℚ :=
  (if containsSub ql (toLowerStr pa.domain) then (3:ℚ) else 0)
  + 2 * (((pa.subDomains.filter (fun sd => containsSub ql (toLowerStr sd))).length : ℚ))
  + (3/2) * (((pa.domainKeywords.filter (fun kw => containsSub ql (toLowerStr kw))).length : ℚ))

/-- The `matches` accumulation of `_check_guardrail`: sum per distinct
query word of length at least 3 of its signature match contribution. -/
def guardrailMatches (fuzzy : List Char → List Char → ℚ)
    (qwords signatureLower : List (List Char)) : ℚ :=
  (qwords.map (fun w =>
    if w.length < 3 then 0 else wordMatchScore fuzzy w signatureLower)).sum

/-- The final score of `_check_guardrail` from `matches`, the query word
count and `bonus_matches`: `base = matches / max(1, min(#words, 10))`,
`score = min(1, base + min(0.5, bonus*0.1))`, floored at 0.2 when
`bonus >= 1`. -/
def guardrailScore (matchScore : ℚ) (nwords : ℕ) (bonusMatches : ℚ) : ℚ :=
  let maxPossible : ℚ := max 1 (min (nwords : ℚ) 10)
  let baseScore := matchScore / maxPossible
  let bonusScore := min (1/2) (bonusMatches * (1/10))
  let score := min 1 (baseScore + bonusScore)
  if 1 ≤ bonusMatches then max score (1/5) else score

/-- `ReasoningEngine._check_guardrail`. Returns `(is_in_domain, score)`;
the in-domain threshold `DOMAIN_SIMILARITY_THRESHOLD` is 0.05. -/
def checkGuardrail (fuzzy : List Char → List Char → ℚ) (query : List Char)
    (domainSignature : List (List Char)) (pa : Analysis) : Bool × ℚ :=
  let ql := toLowerStr query
  let qwords := (wordsOf ql).dedup
  let signatureLower := (domainSignature.map toLowerStr).take 100
  let score := guardrailScore (guardrailMatches fuzzy qwords signatureLower)
    qwords.length (guardrailBonus ql pa)
  (decide (1/20 ≤ score), score)

/-! ### Source attribution (`SourceAttributor`) -/

/-- The `AttributedSentence` dataclass (the citation string `[N]` is kept
as the number `N`). -/
structure AttrSentence where
  text : List Char
  citationNum : ℕ
  sourceChunkId : ℕ
  sourcePreview : List Char
  sourceFile : List Char
  similarity : ℚ
deriving DecidableEq, Repr

/-- One entry of the `sources` list built by `attribute`. -/
structure SourceEntry where
  citationNum : ℕ
  chunkId : ℕ
  source : List Char
  preview : List Char
  similarity : ℚ
deriving DecidableEq, Repr

/-- The `AttributedAnswer` dataclass. -/
structure AttributedAnswer where
  answerWithCitations : List Char
  sentences : List AttrSentence
  sources : List SourceEntry
deriving DecidableEq, Repr

/-- Association-list lookup modelling the `sources_used` dict
(`chunk_id -> citation number`, insertion-ordered). -/
def lookupA : List (ℕ × ℕ) → ℕ → Option ℕ
  | [], _ => none
  | (k, v) :: rest, x => if k = x then some v else lookupA rest x

/-- The inline citation marker `[N]`. -/
def citationMark (n : ℕ) : List Char := '[' :: (natDigits n ++ [']'])

/-- `SourceAttributor._find_best_source` on the embedding path: start from
the first chunk with similarity 0 and keep the strictly best one. `sim`
models cosine similarity of the fastembed sentence and chunk embeddings.
(On an empty chunk list the code returns `(None, 0.0)`; the dummy record
below stands for `None` — all callers guard against empty chunk lists.) -/
def findBestSource (sim : List Char → Chunk → ℚ) (sentence : List Char)
    (chunks : List Chunk) : Chunk × ℚ :=
  match chunks with
  | [] => ({ id := 0, content := [], source := [] }, 0)
  | c0 :: _ =>
      chunks.foldl
        (fun acc c => if sim sentence c > acc.2 then (c, sim sentence c) else acc)
        (c0, 0)

/-- The `AttributedSentence` record built for one attributed sentence:
text, citation number, the best chunk's id, its 150-character preview, its
source file and the similarity. -/
def mkAttrSentence (s : List Char) (n : ℕ) (bs : Chunk × ℚ) : AttrSentence :=
  { text := s, citationNum := n, sourceChunkId := bs.1.id,
    sourcePreview := bs.1.content.take 150, sourceFile := bs.1.source,
    similarity := bs.2 }

/-- One iteration of the sentence loop of `attribute`: skip sentences of
fewer than 4 words; otherwise attribute the sentence to its best chunk,
assigning a fresh dense citation number (`len(sources_used) + 1`) at the
first appearance of the chunk and reusing the stored number afterwards. -/
def citeStep (sim : List Char → Chunk → ℚ) (chunks : List Chunk)
    (acc : List (ℕ × ℕ) × List AttrSentence) (s : List Char) :
    List (ℕ × ℕ) × List AttrSentence :=
  if (wordsOf s).length < 4 then acc
  else
    let bs := findBestSource sim s chunks
    match lookupA acc.1 bs.1.id with
    | some n => (acc.1, acc.2 ++ [mkAttrSentence s n bs])
    | none =>
        (acc.1 ++ [(bs.1.id, acc.1.length + 1)],
         acc.2 ++ [mkAttrSentence s (acc.1.length + 1) bs])

/-- `SourceAttributor._build_cited_answer`: walk the attributed sentences
in reverse and replace the first occurrence of each sentence by the
sentence followed by its citation marker. -/
def buildCitedAnswer (answer : List Char) (attributed : List AttrSentence) :
    List Char :=
  attributed.reverse.foldl
    (fun result a =>
      if containsSub result a.text then
        replaceFirst result a.text (a.text ++ ' ' :: citationMark a.citationNum)
      else result)
    answer

/-- One entry of the `sources` list of `attribute`. -/
def mkSourceEntry (p : ℕ × ℕ) (a : AttrSentence) : SourceEntry :=
  { citationNum := p.2, chunkId := p.1, source := a.sourceFile,
    preview := a.sourcePreview, similarity := round3 a.similarity }

/-- The `sources` list of `attribute`: iterate `sources_used` in citation
order (its insertion order) and attach the first attributed sentence of
each chunk. -/
def buildSources (used : List (ℕ × ℕ)) (attributed : List AttrSentence) :
    List SourceEntry :=
  used.filterMap (fun p =>
    (attributed.find? (fun a => a.sourceChunkId = p.1)).map (mkSourceEntry p))

/-- `SourceAttributor.attribute`, parameterized by the sentence–chunk
similarity oracle `sim` (embedding model plus cosine similarity). -/
def attributeAnswer (sim : List Char → Chunk → ℚ) (answer : List Char)
    (chunks : List Chunk) : AttributedAnswer :=
  if answer = [] ∨ chunks = [] then
    { answerWithCitations := answer, sentences := [], sources := [] }
  else
    let acc := (splitSentences answer).foldl (citeStep sim chunks) ([], [])
    { answerWithCitations := buildCitedAnswer answer acc.2
      sentences := acc.2
      sources := buildSources acc.1 acc.2 }

/-- Specification-side definition: the distinct elements of a list in
order of first appearance. -/
def firstOccurrences (l : List ℕ) : List ℕ :=
  l.foldl (fun acc x => if x ∈ acc then acc else acc ++ [x]) []

/-- Loop invariant of the sentence loop of `attribute`: citation numbers
in `sources_used` are dense `1..K` in first-appearance order of the
attributed chunk ids, every attributed sentence agrees with the dict, and
every dict key has an attributed sentence. -/
def citeInv (acc : List (ℕ × ℕ) × List AttrSentence) : Prop :=
  acc.1.map Prod.snd = List.range' 1 acc.1.length
  ∧ acc.1.map Prod.fst = firstOccurrences (acc.2.map AttrSentence.sourceChunkId)
  ∧ (∀ a ∈ acc.2, lookupA acc.1 a.sourceChunkId = some a.citationNum)
  ∧ (∀ p ∈ acc.1, ∃ a ∈ acc.2, a.sourceChunkId = p.1)

/-- A constant similarity oracle for concrete attribution evaluations. -/
def simZero : List Char → Chunk → ℚ := fun _ _ => 0

/-- Concrete uncited answer for the C4 analysis. -/
def answerAlpha : List Char := ("Alpha beta gamma delta.").toList

/-- `answerAlpha` after one attribution pass. -/
def answerAlphaCited : List Char := ("Alpha beta gamma delta. [1]").toList

/-- An answer whose single sentence occurs twice. -/
def answerAlphaTwice : List Char :=
  ("Alpha beta gamma delta. Alpha beta gamma delta.").toList

/-! ### Compilation worker (`_run_compilation_thread`) and knowledge
compiler (`KnowledgeCompiler`)

The database is modelled as a single-agent state mutated in program order;
commits are modelled as reliable. External effects (fastembed model load,
embedding batch, insert, and exceptions of the construction steps) are
oracle parameters. -/

/-- `Agent.status` values. -/
inductive AgentStatus
  | initializing
  | inProgress
  | ready
  | failed
deriving DecidableEq, Repr

/-- `CompilationJob.status` values. -/
inductive JobStatus
  | inProgress
  | completed
  | failed
deriving DecidableEq, Repr

/-- The database state of the compiled agent and its job: the fields of
`Agent` and `CompilationJob` that `_run_compilation_thread` and
`_save_to_vector_db` read or write, plus the agent's `DocumentChunk`
rows (`storedChunks`, one entry per chunk content). -/
structure WorkerState where
  agentStatus : AgentStatus
  agentDomain : List Char
  agentDomainKeywords : List (List Char)
  agentEntityCount : ℕ
  agentChunkCount : ℕ
  storedChunks : List (List Char)
  jobStatus : JobStatus
  jobProgress : ℕ
  jobCurrentStep : List Char
  jobError : Option (List Char)
  jobCompletedAt : Bool
deriving DecidableEq, Repr

/-- One uploaded file, as the worker receives it in `files_data`. -/
structure WFile where
  filename : List Char
  content : List Char
deriving DecidableEq, Repr

/-- One entry of the worker's `parsed_data` (keys `source`, `content`,
`type = "text"`, `records`). -/
structure WParsed where
  source : List Char
  content : List Char
  records : List (List Char)
deriving DecidableEq, Repr

/-- The worker's parsing loop: `records = content.split(chr(10)) if
content else []`. -/
def mkParsed (f : WFile) : WParsed :=
  { source := f.filename, content := f.content,
    records := if f.content = [] then [] else splitOnNl f.content }

/-- The 60-character `=` separator of `_build_text_context`. -/
def eqSep : List Char := List.replicate 60 '='

/-- The parts `_build_text_context` emits for one `parsed_data` entry of
the worker's shape (`source`/`content`/`records` keys, format `text`, no
`data` and no `text` keys): a separator header, then the content, or the
non-blank records as `[Line j] ...` lines when the content is empty. -/
def filePartsOf (p : WParsed) : List (List Char) :=
  ['\n' :: eqSep,
   ("SOURCE: ").toList ++ p.source ++ (" (TEXT)").toList,
   eqSep ++ ['\n']]
  ++ (if p.content ≠ [] then [p.content]
      else if p.records ≠ [] then
        p.records.enum.filterMap (fun jr =>
          if jr.2 ≠ [] ∧ stripChars jr.2 ≠ [] then
            some ((("[Line ").toList ++ natDigits (jr.1 + 1)) ++ (("] ").toList ++ jr.2))
          else none)
      else [])

/-- `KnowledgeCompiler._build_text_context`: join all parts with newlines
and truncate beyond 500000 characters. -/
def buildTextContext (parsed : List WParsed) : List Char :=
  let ctx := joinNl ((parsed.map filePartsOf).flatten)
  if 500000 < ctx.length then
    ctx.take 500000 ++ ('\n' :: '\n' :: ("[CONTEXT TRUNCATED DUE TO SIZE LIMITS]").toList)
  else ctx

/-- The chunking loop of `KnowledgeCompiler._chunk_text`: emit
`text[start:start+chunkSize]`, stop when the slice reaches the end, else
advance by `chunkSize - overlap`. `fuel` bounds the iterations (the real
loop advances by 900 > 0 each round). -/
def chunkTextAux (text : List Char) (chunkSize step : ℕ) : ℕ → ℕ → List (List Char)
  | 0, _ => []
  | fuel + 1, start =>
      let endPos := min (start + chunkSize) text.length
      let c := (text.drop start).take (endPos - start)
      if endPos = text.length then [c]
      else c :: chunkTextAux text chunkSize step fuel (start + step)

/-- `KnowledgeCompiler._chunk_text` with the default `chunk_size = 1000`,
`overlap = 100`. -/
def chunkText (text : List Char) : List (List Char) :=
  if text = [] then [] else chunkTextAux text 1000 900 (text.length + 1) 0

/-- Oracle outcomes for the external effects inside
`KnowledgeCompiler._save_to_vector_db`: whether the fastembed model
loaded, whether the embedding batch raises (silent early return), and
whether the chunk insert raises (rolled back and swallowed). -/
structure VectorSaveOracle where
  embeddingLoaded : Bool
  embedFails : Bool
  insertFails : Bool
deriving DecidableEq, Repr

/-- `KnowledgeCompiler._save_to_vector_db`: chunk the context; when there
are no chunks, the embedding batch fails, or the insert fails, leave the
stored chunks and `chunk_count` untouched (every failure is swallowed);
otherwise replace the agent's chunks and set `chunk_count`. -/
def saveToVectorDb (o : VectorSaveOracle) (context : List Char)
    (st : WorkerState) : WorkerState :=
  let chunks := chunkText context
  if chunks = [] then st
  else if o.embedFails then st
  else if o.insertFails then st
  else { st with storedChunks := chunks, agentChunkCount := chunks.length }

/-- `total_entries` of `KnowledgeCompiler._calculate_stats` on the
worker's dict shape: `len(p.get("data", [])) or len(p.get("records", []))`
is the record count since there is no `data` key. -/
def statsTotalEntries (parsed : List WParsed) : ℕ :=
  (parsed.map (fun p => p.records.length)).sum

/-- `KnowledgeCompiler.compile` restricted to its database effects: build
the text context, then save to the vector store when the embedding model
loaded. Returns the stats `total_entries` and the new state. (Filesystem
steps 1–4 have no database effect; an exception there is represented by
`CompilationExc.atCompile`, which skips this whole call.) -/
def compilerCompile (o : VectorSaveOracle) (parsed : List WParsed)
    (st : WorkerState) : ℕ × WorkerState :=
  let st2 :=
    if o.embeddingLoaded then saveToVectorDb o (buildTextContext parsed) st else st
  (statsTotalEntries parsed, st2)

/-- Where an exception is raised during `_run_compilation_thread`:
`noExc` for a clean run; `atAnalyzer` / `atCompilerInit` for
`create_prompt_analyzer()` / `create_knowledge_compiler(...)` raising
(these reach the outer handler); `atCompile` for `compiler.compile(...)`
raising before its vector-save step (caught by the inner `except` and
swallowed, with `result = empty stats`). -/
inductive CompilationExc
  | noExc
  | atAnalyzer (msg : List Char)
  | atCompilerInit (msg : List Char)
  | atCompile (msg : List Char)
deriving DecidableEq, Repr

/-- `_update_progress`: set job progress and current step, commit. -/
def setProgress (progress : ℕ) (step : List Char) (st : WorkerState) :
    WorkerState :=
  { st with jobProgress := progress, jobCurrentStep := step }

/-- The outer `except` handler of `_run_compilation_thread`: job `failed`
with the message truncated to 500 characters, `completed_at` set, agent
`failed`. -/
def failState (msg : List Char) (st : WorkerState) : WorkerState :=
  { st with
    jobStatus := JobStatus.failed,
    jobError := some (msg.take 500),
    jobCompletedAt := true,
    agentStatus := AgentStatus.failed }

/-- `_run_compilation_thread`: progress 10, analyze the prompt; progress
20, build the compiler; progress 30, parse the files and run the compiler
(its exceptions swallowed); progress 80 and 90; mark the agent `ready`
with domain, keywords and entity count; mark the job `completed` at 100
with `completed_at` set. Any exception outside the inner compile call
lands in `failState`. -/
def runCompilationThread (exc : CompilationExc) (o : VectorSaveOracle)
    (llm : Option RawAnalysis) (systemPrompt : List Char) (files : List WFile)
    (st : WorkerState) : WorkerState :=
  let st1 := setProgress 10 (("Analyzing system prompt").toList) st
  match exc with
  | CompilationExc.atAnalyzer msg => failState msg st1
  | exc2 =>
      let analysis := analyzePrompt llm systemPrompt
      let st2 := setProgress 20 (("Initializing knowledge compiler").toList) st1
      match exc2 with
      | CompilationExc.atCompilerInit msg => failState msg st2
      | exc3 =>
          let st3 := setProgress 30 (("Compiling knowledge base").toList) st2
          let parsed := files.map mkParsed
          let compiled :=
            match exc3 with
            | CompilationExc.atCompile _ => (0, st3)
            | _ => compilerCompile o parsed st3
          let st4 := setProgress 80 (("Saving to vector store").toList) compiled.2
          let st5 := setProgress 90 (("Updating agent metadata").toList) st4
          let st6 := { st5 with
            agentStatus := AgentStatus.ready,
            agentDomain := analysis.domain,
            agentDomainKeywords := analysis.domainKeywords,
            agentEntityCount := compiled.1 }
          { st6 with
            jobStatus := JobStatus.completed,
            jobProgress := 100,
            jobCurrentStep := ("Compilation complete").toList,
            jobCompletedAt := true }

/-- A fresh in-progress state (new agent, job just created). -/
def freshState : WorkerState :=
  { agentStatus := AgentStatus.inProgress, agentDomain := [],
    agentDomainKeywords := [], agentEntityCount := 0, agentChunkCount := 0,
    storedChunks := [], jobStatus := JobStatus.inProgress, jobProgress := 0,
    jobCurrentStep := ("Initializing").toList, jobError := none,
    jobCompletedAt := false }

/-- The all-healthy vector-save oracle. -/
def oracleOk : VectorSaveOracle :=
  { embeddingLoaded := true, embedFails := false, insertFails := false }

/-- A concrete uploaded file. -/
def fileW : WFile :=
  { filename := ("recipes.txt").toList,
    content := ("caesar salad with romaine and parmesan").toList }

/-- A concrete chunk used in witnesses and counterexamples. -/
def chunkW : Chunk :=
  { id := 7, content := ("caesar salad with parmesan").toList,
    source := ("recipes.csv").toList }

/-- A constant fuzzy-match oracle for concrete guardrail evaluations. -/
def fuzzyZero : List Char → List Char → ℚ := fun _ _ => 0

/-- A concrete agent analysis with domain `cooking`. -/
def paCooking : Analysis :=
  { domain := ("cooking").toList, subDomains := [], personality := [],
    constraints := [], suggestedName := [], domainKeywords := [],
    tone := [], capabilities := [] }

end Mexar

namespace Mexar

/-! ## Theorems -/

/-- **C7.** `validate_sufficiency` reports `sufficient = true` iff
(total entries ≥ 20 OR total characters ≥ 2000) and no source has a parse
error and no source has zero entries; moreover a corpus of exactly 20
error-free, non-empty entries is sufficient, while 19 entries with fewer
than 2000 characters is insufficient. -/
theorem c7_validate_sufficiency :
    (∀ ps : List ParsedSource,
      (validateSufficiency ps).sufficient = true ↔
        ((MIN_ENTRIES ≤ totalEntries ps ∨ MIN_CHARACTERS ≤ totalChars ps)
          ∧ (∀ p ∈ ps, p.hasError = false)
          ∧ (∀ p ∈ ps, p.entriesCount ≠ 0)))
    ∧ (validateSufficiency corpus20).sufficient = true
    ∧ (validateSufficiency corpus19).sufficient = false := by
  refine ⟨fun ps => ?_, by decide, by decide⟩
  have hA : (ps.filter (fun p => decide (p.entriesCount = 0)) = []) ↔
      ∀ p ∈ ps, p.entriesCount ≠ 0 := by
    rw [List.filter_eq_nil_iff]; simp
  have hB : (ps.filter (fun p => p.hasError) = []) ↔
      ∀ p ∈ ps, p.hasError = false := by
    rw [List.filter_eq_nil_iff]; simp
  by_cases he : MIN_ENTRIES ≤ totalEntries ps <;>
    by_cases hc : MIN_CHARACTERS ≤ totalChars ps <;>
    by_cases h2 : ps.filter (fun p => decide (p.entriesCount = 0)) = [] <;>
    by_cases h3 : ps.filter (fun p => p.hasError) = [] <;>
    simp_all [validateSufficiency]

/-- **C10.** When the answer or the context is empty, the faithfulness
scorer returns score 1, zero total and supported claims, an empty
unsupported list, and makes no LLM call. -/
theorem c10_empty_faithfulness (o : LlmOracle) (answer context : List Char)
    (h : answer = [] ∨ context = []) :
    scoreFaithfulness o answer context =
      ({ score := 1, totalClaims := 0, supportedClaims := 0,
         unsupportedClaims := [] }, 0) := by
  unfold scoreFaithfulness
  rw [if_pos h]

/-- Witness for C10 at a concrete input: empty answer, non-empty context. -/
theorem c10_empty_faithfulness_witness :
    scoreFaithfulness oracleW [] (("some context").toList) =
      ({ score := 1, totalClaims := 0, supportedClaims := 0,
         unsupportedClaims := [] }, 0) :=
  c10_empty_faithfulness oracleW [] (("some context").toList) (Or.inl rfl)

/-- Rounding a value clamped to `[0.15, 0.95]` to two decimals stays in
`[0.15, 0.95]`. -/
theorem round2_clamp_bounds (x : ℚ) :
    15/100 ≤ round2 (min (95/100) (max (15/100) x))
    ∧ round2 (min (95/100) (max (15/100) x)) ≤ 95/100 := by
  set y := min ((95:ℚ)/100) (max (15/100) x) with hy
  have h1 : (15:ℚ)/100 ≤ y := le_min (by norm_num) (le_max_left _ _)
  have h2 : y ≤ 95/100 := min_le_left _ _
  have hlow : (15:ℤ) ≤ round (y * 100) := by
    rw [round_eq, Int.le_floor]
    push_cast
    linarith
  have hhigh : round (y * 100) ≤ (95:ℤ) := by
    rw [round_eq]
    have h96 : Int.floor (y * 100 + 1/2) < (96:ℤ) := by
      rw [Int.floor_lt]
      push_cast
      linarith
    omega
  constructor
  · unfold round2
    have hc : ((15:ℤ):ℚ) ≤ ((round (y * 100) : ℤ) : ℚ) := by exact_mod_cast hlow
    push_cast at hc
    linarith
  · unfold round2
    have hc : ((round (y * 100) : ℤ) : ℚ) ≤ ((95:ℤ):ℚ) := by exact_mod_cast hhigh
    push_cast at hc
    linarith

/-- **C1.** `_calculate_confidence` computes exactly the specification's
formula `0.35*clamp(t*30,0,1) + 0.30*clamp((r+10)/20,0,1) + 0.25*f + 0.10`
with the floor-0.75 / cap-0.45 post-adjustments, clamped to `[0.15, 0.95]`
and rounded to two decimals (given the non-negative RRF score every
in-domain query supplies); the result lies in `[0.15, 0.95]`; out-of-domain
responses carry confidence exactly 0.1 and no-results responses exactly
0.2. -/
theorem c1_confidence_spec (t r f q : ℚ) (ht : 0 ≤ t) :
    calculateConfidence t r f
        = round2 (min (95/100) (max (15/100) (specConfidenceAdjusted t r f)))
      ∧ 15/100 ≤ calculateConfidence t r f
      ∧ calculateConfidence t r f ≤ 95/100
      ∧ (createOutOfDomainResponse q).confidence = 1/10
      ∧ createNoResultsResponse.confidence = 1/5 := by
  have hns : clampQ 0 1 (t * 30) = normSimilarity t := by
    have h30 : (0:ℚ) ≤ t * 30 := by positivity
    simp [clampQ, normSimilarity, max_eq_right h30]
  have hnr : clampQ 0 1 ((r + 10) / 20) = normRerank r := by
    simp [clampQ, normRerank]
  have hmul : (35:ℚ)/100 * normSimilarity t + 30/100 * normRerank r + 25/100 * f + 10/100
      = normSimilarity t * (35/100) + normRerank r * (30/100) + f * (25/100) + 10/100 := by
    ring
  have heq : calculateConfidence t r f
      = round2 (min (95/100) (max (15/100) (specConfidenceAdjusted t r f))) := by
    simp only [calculateConfidence, specConfidenceAdjusted, hns, hnr, hmul]
  refine ⟨heq, ?_, ?_, rfl, rfl⟩
  · rw [heq]; exact (round2_clamp_bounds _).1
  · rw [heq]; exact (round2_clamp_bounds _).2

/-- Witness for C1 at a concrete input (`t = 0, r = 0, f = 0`). -/
theorem c1_confidence_spec_witness :
    (0:ℚ) ≤ 0
    ∧ 15/100 ≤ calculateConfidence 0 0 0
    ∧ calculateConfidence 0 0 0 ≤ 95/100 :=
  ⟨le_refl 0, (c1_confidence_spec 0 0 0 0 (le_refl 0)).2.1,
    (c1_confidence_spec 0 0 0 0 (le_refl 0)).2.2.1⟩

/-- **C5 counterexample.** The degraded reranker does return the
candidates in input order with the constant placeholder score 0.5, but the
orchestrator's normalized-rerank component for that placeholder is
`(0.5 + 10) / 20 = 0.525`, not 0.5 as the claim states. -/
theorem c5_counterexample :
    rerankChunks false (fun _ => none) [] [chunkW] 5 = [(chunkW, 1/2)]
    ∧ normRerank (1/2) ≠ 1/2 := by
  constructor
  · simp [rerankChunks, chunkW]
  · unfold normRerank
    rw [show ((1:ℚ)/2 + 10) / 20 = 21/40 by norm_num]
    rw [max_eq_right (by norm_num), min_eq_right (by norm_num)]
    norm_num

/-- **C5 (amended).** When the cross-encoder model is unavailable,
`Reranker.rerank` returns the first `top_k` candidates in input order, each
paired with the constant placeholder score 0.5, and the orchestrator's
confidence computation maps this placeholder to a normalized-rerank
component of exactly 0.525. -/
theorem c5_rerank_fallback (scores : List Chunk → Option (List ℚ))
    (query : List Char) (chunks : List Chunk) (topK : ℕ) (h : chunks ≠ []) :
    (rerankChunks false scores query chunks topK).length = min topK chunks.length
    ∧ (∀ i, i < min topK chunks.length →
        (rerankChunks false scores query chunks topK)[i]? =
          (chunks[i]?).map (fun c => (c, (1:ℚ)/2)))
    ∧ normRerank (1/2) = 21/40 := by
  have hr : rerankChunks false scores query chunks topK
      = (chunks.take topK).map (fun c => (c, (1:ℚ)/2)) := by
    simp [rerankChunks, h]
  refine ⟨?_, ?_, ?_⟩
  · rw [hr]; simp
  · intro i hi
    rw [hr, List.getElem?_map, List.getElem?_take, if_pos (lt_min_iff.mp hi).1]
  · unfold normRerank
    rw [show ((1:ℚ)/2 + 10) / 20 = 21/40 by norm_num]
    rw [max_eq_right (by norm_num), min_eq_right (by norm_num)]

/-- Witness for C5 at a concrete input. -/
theorem c5_rerank_fallback_witness :
    ([chunkW] ≠ ([] : List Chunk))
    ∧ (rerankChunks false (fun _ => none) [] [chunkW] 5).length = min 5 1 :=
  ⟨by simp, (c5_rerank_fallback (fun _ => none) [] [chunkW] 5 (by simp)).1⟩

/-- A list starts with itself. -/
theorem startsWithChars_self (s : List Char) : startsWithChars s s = true := by
  induction s with
  | nil => rfl
  | cons c cs ih => simp [startsWithChars, ih]

/-- Every list contains itself as a substring. -/
theorem containsSub_self (s : List Char) : containsSub s s = true := by
  cases s with
  | nil => rfl
  | cons c cs => simp [containsSub, startsWithChars_self]

/-- **C6.** For a query consisting solely of the (non-empty) domain name,
the guardrail returns `in_domain = true` with score at least 0.2: the
domain substring match yields `bonus >= 3 >= 1`, which floors the score at
0.2, above the 0.05 in-domain threshold. -/
theorem c6_domain_query_in_domain (fuzzy : List Char → List Char → ℚ)
    (sig : List (List Char)) (pa : Analysis) (_h : pa.domain ≠ []) :
    (checkGuardrail fuzzy pa.domain sig pa).1 = true
    ∧ 1/5 ≤ (checkGuardrail fuzzy pa.domain sig pa).2 := by
  have hb : (1:ℚ) ≤ guardrailBonus (toLowerStr pa.domain) pa := by
    unfold guardrailBonus
    rw [if_pos (containsSub_self (toLowerStr pa.domain))]
    have ha : (0:ℚ) ≤ (((pa.subDomains.filter
        (fun sd => containsSub (toLowerStr pa.domain) (toLowerStr sd))).length : ℚ)) :=
      Nat.cast_nonneg _
    have hc : (0:ℚ) ≤ (((pa.domainKeywords.filter
        (fun kw => containsSub (toLowerStr pa.domain) (toLowerStr kw))).length : ℚ)) :=
      Nat.cast_nonneg _
    linarith
  have hsc : ∀ m : ℚ, ∀ n : ℕ, 1/5 ≤ guardrailScore m n (guardrailBonus (toLowerStr pa.domain) pa) := by
    intro m n
    unfold guardrailScore
    rw [if_pos hb]
    exact le_max_right _ _
  constructor
  · simp only [checkGuardrail]
    rw [decide_eq_true_eq]
    exact le_trans (by norm_num) (hsc _ _)
  · simp only [checkGuardrail]
    exact hsc _ _

/-- Witness for C6 at a concrete agent (domain `cooking`). -/
theorem c6_domain_query_in_domain_witness :
    (checkGuardrail fuzzyZero paCooking.domain [] paCooking).1 = true
    ∧ 1/5 ≤ (checkGuardrail fuzzyZero paCooking.domain [] paCooking).2 :=
  c6_domain_query_in_domain fuzzyZero [] paCooking (by decide)

/-- The padding loop only ever appends to the existing keywords. -/
theorem padFromDefaults_extends (defaults existing : List (List Char)) :
    ∃ t, padFromDefaults existing defaults = existing ++ t := by
  induction defaults generalizing existing with
  | nil => exact ⟨[], by simp [padFromDefaults]⟩
  | cons d ds ih =>
      simp only [padFromDefaults, List.foldl_cons]
      by_cases hc : d ∉ existing ∧ existing.length < 20
      · rw [if_pos hc]
        obtain ⟨t, ht⟩ := ih (existing ++ [d])
        exact ⟨[d] ++ t, by rw [← List.append_assoc]; exact ht⟩
      · rw [if_neg hc]
        exact ih existing

/-- The padding loop never grows the list beyond 20 entries. -/
theorem padFromDefaults_length (defaults : List (List Char)) :
    ∀ existing : List (List Char), existing.length ≤ 20 →
      (padFromDefaults existing defaults).length ≤ 20 := by
  induction defaults with
  | nil => intro existing h; simpa [padFromDefaults] using h
  | cons d ds ih =>
      intro existing h
      simp only [padFromDefaults, List.foldl_cons]
      by_cases hc : d ∉ existing ∧ existing.length < 20
      · rw [if_pos hc]
        exact ih (existing ++ [d]) (by simp; omega)
      · rw [if_neg hc]
        exact ih existing h

/-- Every keyword produced by the padding loop comes from the existing
keywords or from the defaults table. -/
theorem padFromDefaults_mem (defaults : List (List Char)) :
    ∀ existing : List (List Char), ∀ x ∈ padFromDefaults existing defaults,
      x ∈ existing ∨ x ∈ defaults := by
  induction defaults with
  | nil => intro existing x hx; exact Or.inl (by simpa [padFromDefaults] using hx)
  | cons d ds ih =>
      intro existing x hx
      simp only [padFromDefaults, List.foldl_cons] at hx
      by_cases hc : d ∉ existing ∧ existing.length < 20
      · rw [if_pos hc] at hx
        rcases ih (existing ++ [d]) x hx with h1 | h1
        · rcases List.mem_append.mp h1 with h2 | h2
          · exact Or.inl h2
          · exact Or.inr (by simp at h2; simp [h2])
        · exact Or.inr (List.mem_cons_of_mem _ h1)
      · rw [if_neg hc] at hx
        rcases ih existing x hx with h1 | h1
        · exact Or.inl h1
        · exact Or.inr (List.mem_cons_of_mem _ h1)

/-- After `appendDomainIfMissing`, the lowercased domain is present. -/
theorem appendDomainIfMissing_mem (ks : List (List Char)) (domain : List Char) :
    toLowerStr domain ∈ (appendDomainIfMissing ks domain).map toLowerStr := by
  unfold appendDomainIfMissing
  by_cases hc : toLowerStr domain ∉ ks.map toLowerStr
  · rw [if_pos hc]
    simp
  · rw [if_neg hc]
    exact not_not.mp hc

/-- `appendDomainIfMissing` only ever appends. -/
theorem appendDomainIfMissing_extends (ks : List (List Char)) (domain : List Char) :
    ∃ t, appendDomainIfMissing ks domain = ks ++ t := by
  unfold appendDomainIfMissing
  by_cases hc : toLowerStr domain ∉ ks.map toLowerStr
  · rw [if_pos hc]; exact ⟨[domain], rfl⟩
  · rw [if_neg hc]; exact ⟨[], by simp⟩

/-- The expanded keyword list keeps the LLM keywords as a prefix. -/
theorem expandKeywords_extends (existing : List (List Char)) (domain : List Char)
    (h : existing.length < 10) :
    ∃ t, expandKeywords existing domain = existing ++ t := by
  unfold expandKeywords
  obtain ⟨t0, ht0⟩ := padFromDefaults_extends (domainDefaults (toLowerStr domain)) existing
  obtain ⟨t1, ht1⟩ := appendDomainIfMissing_extends
    (padFromDefaults existing (domainDefaults (toLowerStr domain))) domain
  rw [ht1, ht0, List.append_assoc, List.take_append_eq_append_take,
    List.take_of_length_le (by omega)]
  exact ⟨(t0 ++ t1).take (20 - existing.length), rfl⟩

/-- The expanded keyword list never exceeds 20 entries. -/
theorem expandKeywords_le_twenty (existing : List (List Char)) (domain : List Char) :
    (expandKeywords existing domain).length ≤ 20 := by
  unfold expandKeywords
  simp [List.length_take]

/-- When the 20-entry cap is not reached, the expanded keyword list
contains the domain itself (case-insensitively). -/
theorem expandKeywords_domain_mem (existing : List (List Char)) (domain : List Char)
    (h : (expandKeywords existing domain).length < 20) :
    toLowerStr domain ∈ (expandKeywords existing domain).map toLowerStr := by
  unfold expandKeywords at h ⊢
  set ks2 := appendDomainIfMissing
    (padFromDefaults existing (domainDefaults (toLowerStr domain))) domain with hks2
  have hlen : ks2.length < 20 := by
    rw [List.length_take] at h
    omega
  rw [List.take_of_length_le (le_of_lt hlen)]
  exact appendDomainIfMissing_mem _ _

/-- Every expanded keyword comes from the LLM keywords, the defaults
table, or is the domain itself. -/
theorem expandKeywords_mem (existing : List (List Char)) (domain : List Char) :
    ∀ x ∈ expandKeywords existing domain,
      x ∈ existing ∨ x ∈ domainDefaults (toLowerStr domain) ∨ x = domain := by
  intro x hx
  unfold expandKeywords at hx
  have hx2 := List.take_subset _ _ hx
  unfold appendDomainIfMissing at hx2
  by_cases hc : toLowerStr domain ∉
      (padFromDefaults existing (domainDefaults (toLowerStr domain))).map toLowerStr
  · rw [if_pos hc] at hx2
    rcases List.mem_append.mp hx2 with h1 | h1
    · rcases padFromDefaults_mem _ _ x h1 with h2 | h2
      · exact Or.inl h2
      · exact Or.inr (Or.inl h2)
    · exact Or.inr (Or.inr (by simpa using h1))
  · rw [if_neg hc] at hx2
    rcases padFromDefaults_mem _ _ x hx2 with h2 | h2
    · exact Or.inl h2
    · exact Or.inr (Or.inl h2)

/-- **C8 counterexample.** For the LLM analysis `domain = "medical"` with
an empty keyword list, the validated `domain_keywords` list begins with
`"health"`, not with the domain itself, refuting "contains the domain
itself as its first element". -/
theorem c8_counterexample :
    (analyzePrompt (some rawMedical) []).domainKeywords.head? ≠
      some ((analyzePrompt (some rawMedical) []).domain) := by
  decide

/-- **C8 (amended).** Whenever the LLM returns fewer than 10 keywords, the
validated `domain_keywords` keeps the LLM keywords as a prefix, is padded
only from the built-in domain-defaults table (keyed `medical`, `legal`,
`cooking`, `technology`, `finance`) or the domain itself, has at most 20
entries, and contains the domain (case-insensitively) whenever the
20-entry cap is not reached — the domain is appended last, not first, and
can be truncated away by the cap. The lexical fallback path satisfies the
same bounds, and the defaults table covers the five listed domains
(`cooking`, not `culinary`). -/
theorem c8_keyword_padding (r : RawAnalysis) (sp : List Char)
    (h : (r.domainKeywords.getD []).length < 10) :
    (∃ t, (ensureFields r).domainKeywords = (r.domainKeywords.getD []) ++ t)
    ∧ (ensureFields r).domainKeywords.length ≤ 20
    ∧ ((ensureFields r).domainKeywords.length < 20 →
        toLowerStr (ensureFields r).domain ∈
          ((ensureFields r).domainKeywords.map toLowerStr))
    ∧ (∀ k ∈ (ensureFields r).domainKeywords,
        k ∈ (r.domainKeywords.getD [])
          ∨ k ∈ domainDefaults (toLowerStr (ensureFields r).domain)
          ∨ k = (ensureFields r).domain)
    ∧ (createFallbackAnalysis sp).domainKeywords.length ≤ 20
    ∧ ((createFallbackAnalysis sp).domainKeywords.length < 20 →
        toLowerStr (createFallbackAnalysis sp).domain ∈
          ((createFallbackAnalysis sp).domainKeywords.map toLowerStr))
    ∧ domainDefaults (("medical").toList) ≠ []
    ∧ domainDefaults (("legal").toList) ≠ []
    ∧ domainDefaults (("cooking").toList) ≠ []
    ∧ domainDefaults (("technology").toList) ≠ []
    ∧ domainDefaults (("finance").toList) ≠ [] := by
  have hdk : (ensureFields r).domainKeywords
      = expandKeywords (r.domainKeywords.getD []) (r.domain.getD (("general").toList)) := by
    simp only [ensureFields]
    rw [if_pos h]
  have hdom : (ensureFields r).domain = r.domain.getD (("general").toList) := rfl
  have hfb : (createFallbackAnalysis sp).domainKeywords
      = expandKeywords [] (createFallbackAnalysis sp).domain := rfl
  refine ⟨?_, ?_, ?_, ?_, ?_, ?_, by decide, by decide, by decide, by decide, by decide⟩
  · rw [hdk]
    exact expandKeywords_extends _ _ h
  · rw [hdk]
    exact expandKeywords_le_twenty _ _
  · rw [hdk, hdom]
    exact expandKeywords_domain_mem _ _
  · rw [hdk, hdom]
    exact expandKeywords_mem _ _
  · rw [hfb]
    exact expandKeywords_le_twenty _ _
  · rw [hfb]
    exact expandKeywords_domain_mem _ _

/-- Witness for C8 at a concrete input. -/
theorem c8_keyword_padding_witness :
    ([] : List (List Char)).length < 10
    ∧ (ensureFields rawMedical).domainKeywords.length ≤ 20
    ∧ domainDefaults (("cooking").toList) ≠ [] :=
  ⟨by decide, (c8_keyword_padding rawMedical [] (by decide)).2.1,
    (c8_keyword_padding rawMedical [] (by decide)).2.2.2.2.2.2.2.2.1⟩

/-- A `lookupA` miss means the key is absent. -/
theorem lookupA_eq_none (l : List (ℕ × ℕ)) (k : ℕ) :
    lookupA l k = none ↔ k ∉ l.map Prod.fst := by
  induction l with
  | nil => simp [lookupA]
  | cons p ps ih =>
      simp only [lookupA, List.map_cons, List.mem_cons]
      by_cases hk : p.1 = k
      · simp [hk]
      · rw [if_neg hk, ih]
        have hk2 : ¬ k = p.1 := fun he => hk he.symm
        tauto

/-- A `lookupA` hit is a member of the association list. -/
theorem lookupA_mem (l : List (ℕ × ℕ)) (k v : ℕ) (h : lookupA l k = some v) :
    (k, v) ∈ l := by
  induction l with
  | nil => simp [lookupA] at h
  | cons p ps ih =>
      by_cases hk : p.1 = k
      · simp only [lookupA, if_pos hk, Option.some_inj] at h
        have hp : p = (k, v) := by
          cases p
          simp only [Prod.mk.injEq]
          exact ⟨hk, h⟩
        rw [← hp]
        exact List.mem_cons_self _ _
      · simp only [lookupA, if_neg hk] at h
        exact List.mem_cons_of_mem _ (ih h)

/-- `lookupA` hits are preserved by appending entries on the right. -/
theorem lookupA_append_some (l l2 : List (ℕ × ℕ)) (k v : ℕ)
    (h : lookupA l k = some v) : lookupA (l ++ l2) k = some v := by
  induction l with
  | nil => simp [lookupA] at h
  | cons p ps ih =>
      rw [List.cons_append]
      by_cases hk : p.1 = k
      · simp only [lookupA, if_pos hk] at h ⊢
        exact h
      · simp only [lookupA, if_neg hk] at h ⊢
        exact ih h

/-- Appending a fresh key makes `lookupA` find it. -/
theorem lookupA_append_new (l : List (ℕ × ℕ)) (k v : ℕ)
    (h : lookupA l k = none) : lookupA (l ++ [(k, v)]) k = some v := by
  induction l with
  | nil => simp [lookupA]
  | cons p ps ih =>
      rw [List.cons_append]
      by_cases hk : p.1 = k
      · simp only [lookupA, if_pos hk] at h
        exact Option.noConfusion h
      · simp only [lookupA, if_neg hk] at h ⊢
        exact ih h

/-- A `lookupA` hit means the key is present. -/
theorem lookupA_some_key_mem (l : List (ℕ × ℕ)) (k v : ℕ)
    (h : lookupA l k = some v) : k ∈ l.map Prod.fst := by
  by_contra hn
  rw [← lookupA_eq_none, h] at hn
  exact Option.noConfusion hn

/-- Appending one element to the scanned list extends the
first-appearance list by that element exactly when it is new. -/
theorem firstOccurrences_append (l : List ℕ) (x : ℕ) :
    firstOccurrences (l ++ [x]) =
      if x ∈ firstOccurrences l then firstOccurrences l
      else firstOccurrences l ++ [x] := by
  unfold firstOccurrences
  rw [List.foldl_append]
  rfl

/-- The first-appearance fold preserves `Nodup` of its accumulator. -/
theorem firstOccurrencesAux_nodup (l : List ℕ) :
    ∀ acc : List ℕ, acc.Nodup →
      (l.foldl (fun acc x => if x ∈ acc then acc else acc ++ [x]) acc).Nodup := by
  induction l with
  | nil => intro acc h; exact h
  | cons x xs ih =>
      intro acc h
      simp only [List.foldl_cons]
      by_cases hx : x ∈ acc
      · rw [if_pos hx]; exact ih acc h
      · rw [if_neg hx]
        exact ih _ (by simp [List.nodup_append, h, hx])

/-- The first-appearance list has no duplicates. -/
theorem firstOccurrences_nodup (l : List ℕ) : (firstOccurrences l).Nodup :=
  firstOccurrencesAux_nodup l [] List.nodup_nil

@[simp] theorem mkAttrSentence_sourceChunkId (s : List Char) (n : ℕ) (bs : Chunk × ℚ) :
    (mkAttrSentence s n bs).sourceChunkId = bs.1.id := rfl

@[simp] theorem mkAttrSentence_citationNum (s : List Char) (n : ℕ) (bs : Chunk × ℚ) :
    (mkAttrSentence s n bs).citationNum = n := rfl

@[simp] theorem mkSourceEntry_citationNum (p : ℕ × ℕ) (a : AttrSentence) :
    (mkSourceEntry p a).citationNum = p.2 := rfl

@[simp] theorem mkSourceEntry_chunkId (p : ℕ × ℕ) (a : AttrSentence) :
    (mkSourceEntry p a).chunkId = p.1 := rfl

/-- The citation loop invariant is preserved by one sentence step. -/
theorem citeStep_inv (sim : List Char → Chunk → ℚ) (chunks : List Chunk)
    (s : List Char) (acc : List (ℕ × ℕ) × List AttrSentence) (h : citeInv acc) :
    citeInv (citeStep sim chunks acc s) := by
  obtain ⟨h1, h2, h3, h4⟩ := h
  by_cases hw : (wordsOf s).length < 4
  · unfold citeStep
    rw [if_pos hw]
    exact ⟨h1, h2, h3, h4⟩
  · cases hl : lookupA acc.1 ((findBestSource sim s chunks).1.id) with
    | some n =>
        have hstep : citeStep sim chunks acc s
            = (acc.1, acc.2 ++ [mkAttrSentence s n (findBestSource sim s chunks)]) := by
          unfold citeStep
          rw [if_neg hw]
          simp only [hl]
        rw [hstep]
        refine ⟨h1, ?_, ?_, ?_⟩
        · show acc.1.map Prod.fst = _
          rw [List.map_append]
          simp only [List.map_cons, List.map_nil, mkAttrSentence_sourceChunkId]
          have hmem : (findBestSource sim s chunks).1.id ∈
              firstOccurrences (acc.2.map AttrSentence.sourceChunkId) := by
            rw [← h2]
            exact lookupA_some_key_mem _ _ _ hl
          rw [firstOccurrences_append, if_pos hmem]
          exact h2
        · intro a ha
          rcases List.mem_append.mp ha with ha1 | ha1
          · exact h3 a ha1
          · have he : a = mkAttrSentence s n (findBestSource sim s chunks) := by
              simpa using ha1
            rw [he]
            exact hl
        · intro p hp
          obtain ⟨a, ha, he⟩ := h4 p hp
          exact ⟨a, List.mem_append_left _ ha, he⟩
    | none =>
        have hstep : citeStep sim chunks acc s
            = (acc.1 ++ [((findBestSource sim s chunks).1.id, acc.1.length + 1)],
               acc.2 ++ [mkAttrSentence s (acc.1.length + 1) (findBestSource sim s chunks)]) := by
          unfold citeStep
          rw [if_neg hw]
          simp only [hl]
        rw [hstep]
        refine ⟨?_, ?_, ?_, ?_⟩
        · show (acc.1 ++ _).map Prod.snd = _
          rw [List.map_append, h1]
          have hlen2 : (acc.1 ++
              [((findBestSource sim s chunks).1.id, acc.1.length + 1)]).length
              = acc.1.length + 1 := by simp
          rw [hlen2, List.range'_concat]
          simp [Nat.add_comm]
        · show (acc.1 ++ _).map Prod.fst = _
          rw [List.map_append, List.map_append, h2]
          simp only [List.map_cons, List.map_nil, mkAttrSentence_sourceChunkId]
          have hno2 : (findBestSource sim s chunks).1.id ∉
              firstOccurrences (acc.2.map AttrSentence.sourceChunkId) := by
            rw [← h2]
            exact (lookupA_eq_none _ _).mp hl
          rw [firstOccurrences_append, if_neg hno2]
        · intro a ha
          rcases List.mem_append.mp ha with ha1 | ha1
          · exact lookupA_append_some _ _ _ _ (h3 a ha1)
          · have he : a = mkAttrSentence s (acc.1.length + 1)
                (findBestSource sim s chunks) := by
              simpa using ha1
            rw [he]
            exact lookupA_append_new _ _ _ hl
        · intro p hp
          rcases List.mem_append.mp hp with hp1 | hp1
          · obtain ⟨a, ha, he⟩ := h4 p hp1
            exact ⟨a, List.mem_append_left _ ha, he⟩
          · have hpe : p = ((findBestSource sim s chunks).1.id, acc.1.length + 1) := by
              simpa using hp1
            refine ⟨mkAttrSentence s (acc.1.length + 1) (findBestSource sim s chunks),
              List.mem_append_right _ (by simp), ?_⟩
            rw [hpe]
            rfl

/-- The citation loop invariant holds after folding any sentence list. -/
theorem citeFold_inv (sim : List Char → Chunk → ℚ) (chunks : List Chunk)
    (sentences : List (List Char)) :
    citeInv (sentences.foldl (citeStep sim chunks) ([], [])) := by
  have key : ∀ acc, citeInv acc →
      citeInv (sentences.foldl (citeStep sim chunks) acc) := by
    induction sentences with
    | nil => intro acc h; exact h
    | cons s ss ih =>
        intro acc h
        simp only [List.foldl_cons]
        exact ih _ (citeStep_inv sim chunks s acc h)
  exact key ([], []) ⟨rfl, rfl, by simp, by simp⟩

/-- When every dict key has an attributed sentence, the `sources` list
mirrors the dict: its citation numbers are the dict values and its chunk
ids the dict keys, in order. -/
theorem buildSources_maps (attrs : List AttrSentence) :
    ∀ used : List (ℕ × ℕ), (∀ p ∈ used, ∃ a ∈ attrs, a.sourceChunkId = p.1) →
      (buildSources used attrs).map SourceEntry.citationNum = used.map Prod.snd
      ∧ (buildSources used attrs).map SourceEntry.chunkId = used.map Prod.fst := by
  intro used
  induction used with
  | nil => intro _; simp [buildSources]
  | cons p ps ih =>
      intro h
      have hex : ∃ a ∈ attrs, a.sourceChunkId = p.1 := h p (by simp)
      have hfind : (attrs.find? (fun a => a.sourceChunkId = p.1)).isSome := by
        rw [List.find?_isSome]
        obtain ⟨a, ha, he⟩ := hex
        exact ⟨a, ha, by simp [he]⟩
      obtain ⟨a, hfa⟩ := Option.isSome_iff_exists.mp hfind
      have hcons : buildSources (p :: ps) attrs
          = mkSourceEntry p a :: buildSources ps attrs := by
        simp [buildSources, List.filterMap_cons, hfa]
      have hrest := ih (fun q hq => h q (List.mem_cons_of_mem _ hq))
      rw [hcons]
      constructor
      · simp [hrest.1]
      · simp [hrest.2]

/-- Every dict entry appears in the `sources` list with its chunk id and
citation number. -/
theorem buildSources_covers (attrs : List AttrSentence) :
    ∀ used : List (ℕ × ℕ), (∀ p ∈ used, ∃ a ∈ attrs, a.sourceChunkId = p.1) →
      ∀ p ∈ used, ∃ src ∈ buildSources used attrs,
        src.chunkId = p.1 ∧ src.citationNum = p.2 := by
  intro used
  induction used with
  | nil => intro _ p hp; simp at hp
  | cons q qs ih =>
      intro h p hp
      have hex : ∃ a ∈ attrs, a.sourceChunkId = q.1 := h q (by simp)
      have hfind : (attrs.find? (fun a => a.sourceChunkId = q.1)).isSome := by
        rw [List.find?_isSome]
        obtain ⟨a, ha, he⟩ := hex
        exact ⟨a, ha, by simp [he]⟩
      obtain ⟨a, hfa⟩ := Option.isSome_iff_exists.mp hfind
      have hcons : buildSources (q :: qs) attrs
          = mkSourceEntry q a :: buildSources qs attrs := by
        simp [buildSources, List.filterMap_cons, hfa]
      rcases List.mem_cons.mp hp with hp1 | hp1
      · refine ⟨mkSourceEntry q a, ?_, ?_⟩
        · rw [hcons]
          exact List.mem_cons_self _ _
        · rw [hp1]
          exact ⟨rfl, rfl⟩
      · obtain ⟨src, hsrc, he⟩ := ih (fun x hx => h x (List.mem_cons_of_mem _ hx)) p hp1
        refine ⟨src, ?_, he⟩
        rw [hcons]
        exact List.mem_cons_of_mem _ hsrc

/-- **C3.** For non-empty answer and chunks, the citation numbers of
`attribute` are dense `1..K`, assigned in order of first chunk appearance
among attributed sentences; each citation number maps to exactly one chunk
id (the chunk-id column has no duplicates); and every attributed sentence
carries the citation number recorded for its chunk, so a sentence reusing
an already-cited chunk receives the same number. -/
theorem c3_dense_citations (sim : List Char → Chunk → ℚ) (answer : List Char)
    (chunks : List Chunk) (h1 : answer ≠ []) (h2 : chunks ≠ []) :
    ((attributeAnswer sim answer chunks).sources.map SourceEntry.citationNum
        = List.range' 1 (attributeAnswer sim answer chunks).sources.length)
    ∧ ((attributeAnswer sim answer chunks).sources.map SourceEntry.chunkId
        = firstOccurrences
            ((attributeAnswer sim answer chunks).sentences.map AttrSentence.sourceChunkId))
    ∧ ((attributeAnswer sim answer chunks).sources.map SourceEntry.chunkId).Nodup
    ∧ (∀ a ∈ (attributeAnswer sim answer chunks).sentences,
        ∃ src ∈ (attributeAnswer sim answer chunks).sources,
          src.chunkId = a.sourceChunkId ∧ src.citationNum = a.citationNum) := by
  have hne : ¬ (answer = [] ∨ chunks = []) := by tauto
  obtain ⟨i1, i2, i3, i4⟩ := citeFold_inv sim chunks (splitSentences answer)
  have hsrc : (attributeAnswer sim answer chunks).sources =
      buildSources ((splitSentences answer).foldl (citeStep sim chunks) ([], [])).1
        ((splitSentences answer).foldl (citeStep sim chunks) ([], [])).2 := by
    simp [attributeAnswer, hne]
  have hsents : (attributeAnswer sim answer chunks).sentences =
      ((splitSentences answer).foldl (citeStep sim chunks) ([], [])).2 := by
    simp [attributeAnswer, hne]
  obtain ⟨m1, m2⟩ := buildSources_maps _ _ i4
  have hlen : (attributeAnswer sim answer chunks).sources.length =
      ((splitSentences answer).foldl (citeStep sim chunks) ([], [])).1.length := by
    rw [hsrc]
    have hc := congrArg List.length m1
    simpa using hc
  refine ⟨?_, ?_, ?_, ?_⟩
  · rw [hlen, hsrc, m1]
    exact i1
  · rw [hsrc, hsents, m2]
    exact i2
  · rw [hsrc, m2, i2]
    exact firstOccurrences_nodup _
  · intro a ha
    rw [hsents] at ha
    have hla := i3 a ha
    have hmem := lookupA_mem _ _ _ hla
    obtain ⟨src, hsrcm, he⟩ := buildSources_covers _ _ i4 _ hmem
    rw [hsrc]
    exact ⟨src, hsrcm, he⟩

/-- Witness for C3 at a concrete input. -/
theorem c3_dense_citations_witness :
    (attributeAnswer simZero answerAlpha [chunkW]).sources.map SourceEntry.citationNum
      = List.range' 1 (attributeAnswer simZero answerAlpha [chunkW]).sources.length :=
  (c3_dense_citations simZero answerAlpha [chunkW] (by decide) (by decide)).1

/-- **C4 counterexample.** Applying `attribute` a second time to the
`answer_with_citations` produced from an uncited answer (same chunks, same
embeddings) does not reproduce it: the citation marker is inserted again. -/
theorem c4_counterexample :
    (attributeAnswer simZero
        ((attributeAnswer simZero answerAlpha [chunkW]).answerWithCitations)
        [chunkW]).answerWithCitations
      ≠ (attributeAnswer simZero answerAlpha [chunkW]).answerWithCitations := by
  decide

/-- **C4 (amended).** Citation insertion replaces only the first occurrence
of each attributed sentence: the uncited answer gains exactly one marker; a
second application of `attribute` to the cited answer inserts the marker
again (so the operation is not idempotent); and an answer whose sentence
occurs twice receives both citations after the first copy. -/
theorem c4_first_occurrence_insertion :
    (attributeAnswer simZero answerAlpha [chunkW]).answerWithCitations
        = answerAlphaCited
    ∧ (attributeAnswer simZero answerAlphaCited [chunkW]).answerWithCitations
        = ("Alpha beta gamma delta. [1] [1]").toList
    ∧ (attributeAnswer simZero answerAlphaTwice [chunkW]).answerWithCitations
        = ("Alpha beta gamma delta. [1] [1] Alpha beta gamma delta.").toList := by
  decide

/-- `_save_to_vector_db` on a healthy oracle and a non-empty chunking
result replaces the chunk set and records its size. -/
theorem saveToVectorDb_success (o : VectorSaveOracle) (context : List Char)
    (st : WorkerState) (hembed : o.embedFails = false)
    (hins : o.insertFails = false) (hchunks : chunkText context ≠ []) :
    saveToVectorDb o context st =
      { st with
        storedChunks := chunkText context,
        agentChunkCount := (chunkText context).length } := by
  unfold saveToVectorDb
  simp [hchunks, hembed, hins]

/-- **C2 counterexample.** A compilation run with an empty file list (and
every external call healthy) completes, marks the agent `ready`, yet zero
`DocumentChunk` rows exist and `chunk_count = 0` — refuting "an agent with
status ready has at least one DocumentChunk". -/
theorem c2_counterexample :
    (runCompilationThread CompilationExc.noExc oracleOk none [] [] freshState).agentStatus
        = AgentStatus.ready
    ∧ (runCompilationThread CompilationExc.noExc oracleOk none [] [] freshState).storedChunks
        = []
    ∧ (runCompilationThread CompilationExc.noExc oracleOk none [] [] freshState).agentChunkCount
        = 0 := by
  decide

/-- **C2 (amended).** When a compilation run completes with no exception,
the embedding model loaded, the embedding batch and insert succeeding, and
the chunker producing at least one chunk, the agent ends `ready` with
`chunk_count` equal to the number of stored `DocumentChunk` rows, both
strictly positive. (In general `ready` does not imply chunks exist: the
worker marks the agent ready even when chunk storage was skipped or
failed, as the counterexample shows.) -/
theorem c2_ready_chunk_count (o : VectorSaveOracle) (llm : Option RawAnalysis)
    (sp : List Char) (files : List WFile) (st : WorkerState)
    (hload : o.embeddingLoaded = true) (hembed : o.embedFails = false)
    (hins : o.insertFails = false)
    (hchunks : chunkText (buildTextContext (files.map mkParsed)) ≠ []) :
    (runCompilationThread CompilationExc.noExc o llm sp files st).agentStatus
        = AgentStatus.ready
    ∧ (runCompilationThread CompilationExc.noExc o llm sp files st).agentChunkCount
        = (runCompilationThread CompilationExc.noExc o llm sp files st).storedChunks.length
    ∧ 0 < (runCompilationThread CompilationExc.noExc o llm sp files st).agentChunkCount := by
  have hsv : ∀ s : WorkerState,
      saveToVectorDb o (buildTextContext (files.map mkParsed)) s
        = { s with
            storedChunks := chunkText (buildTextContext (files.map mkParsed)),
            agentChunkCount := (chunkText (buildTextContext (files.map mkParsed))).length } :=
    fun s => saveToVectorDb_success o _ s hembed hins hchunks
  have hrun : runCompilationThread CompilationExc.noExc o llm sp files st
      = { agentStatus := AgentStatus.ready,
          agentDomain := (analyzePrompt llm sp).domain,
          agentDomainKeywords := (analyzePrompt llm sp).domainKeywords,
          agentEntityCount := statsTotalEntries (files.map mkParsed),
          agentChunkCount := (chunkText (buildTextContext (files.map mkParsed))).length,
          storedChunks := chunkText (buildTextContext (files.map mkParsed)),
          jobStatus := JobStatus.completed, jobProgress := 100,
          jobCurrentStep := ("Compilation complete").toList,
          jobError := st.jobError, jobCompletedAt := true } := by
    simp only [runCompilationThread, compilerCompile, setProgress, hload, if_true, hsv]
  rw [hrun]
  refine ⟨rfl, rfl, ?_⟩
  exact List.length_pos.mpr hchunks

set_option maxRecDepth 4000 in
/-- Witness for C2 (amended) at a concrete input: one text file. -/
theorem c2_ready_chunk_count_witness :
    (runCompilationThread CompilationExc.noExc oracleOk none [] [fileW] freshState).agentStatus
        = AgentStatus.ready
    ∧ 0 < (runCompilationThread CompilationExc.noExc oracleOk none [] [fileW] freshState).agentChunkCount :=
  ⟨(c2_ready_chunk_count oracleOk none [] [fileW] freshState rfl rfl rfl (by decide)).1,
   (c2_ready_chunk_count oracleOk none [] [fileW] freshState rfl rfl rfl (by decide)).2.2⟩

/-- **C9 counterexample.** A run in which `compiler.compile` raises still
ends with the job `completed` and the agent `ready`: the inner `except`
swallows the exception, refuting "any step raises → job failed". -/
theorem c9_counterexample :
    (runCompilationThread (CompilationExc.atCompile (("boom").toList))
        oracleOk none [] [] freshState).jobStatus = JobStatus.completed
    ∧ (runCompilationThread (CompilationExc.atCompile (("boom").toList))
        oracleOk none [] [] freshState).agentStatus = AgentStatus.ready := by
  decide

/-- **C9 (amended).** For every compilation run in which a step other than
the inner `compiler.compile` call raises, the job ends `failed` with an
`error_message` that is the first ≤ 500 characters of the exception text,
`completed_at` set, and the agent `failed`; an exception inside
`compiler.compile` is swallowed and the run completes. At thread exit
`completed_at` is set iff the job status is no longer `in_progress`. -/
theorem c9_failure_handling (exc : CompilationExc) (o : VectorSaveOracle)
    (llm : Option RawAnalysis) (sp : List Char) (files : List WFile)
    (st : WorkerState) (msg : List Char)
    (h : exc = CompilationExc.atAnalyzer msg ∨ exc = CompilationExc.atCompilerInit msg) :
    (runCompilationThread exc o llm sp files st).jobStatus = JobStatus.failed
    ∧ (runCompilationThread exc o llm sp files st).jobError = some (msg.take 500)
    ∧ (msg.take 500).length ≤ 500
    ∧ (runCompilationThread exc o llm sp files st).jobCompletedAt = true
    ∧ (runCompilationThread exc o llm sp files st).agentStatus = AgentStatus.failed
    ∧ (∀ exc2 : CompilationExc,
        ((runCompilationThread exc2 o llm sp files st).jobCompletedAt = true
          ↔ (runCompilationThread exc2 o llm sp files st).jobStatus ≠ JobStatus.inProgress)) := by
  have hiff : ∀ exc2 : CompilationExc,
      ((runCompilationThread exc2 o llm sp files st).jobCompletedAt = true
        ↔ (runCompilationThread exc2 o llm sp files st).jobStatus ≠ JobStatus.inProgress) := by
    intro exc2
    cases exc2 <;> simp [runCompilationThread, failState, setProgress]
  have hlen : (msg.take 500).length ≤ 500 := by
    rw [List.length_take]
    exact min_le_left _ _
  rcases h with rfl | rfl
  · exact ⟨rfl, rfl, hlen, rfl, rfl, hiff⟩
  · exact ⟨rfl, rfl, hlen, rfl, rfl, hiff⟩

/-- Witness for C9 (amended) at a concrete input. -/
theorem c9_failure_handling_witness :
    (runCompilationThread (CompilationExc.atAnalyzer (("db down").toList))
        oracleOk none [] [] freshState).jobStatus = JobStatus.failed
    ∧ (runCompilationThread (CompilationExc.atAnalyzer (("db down").toList))
        oracleOk none [] [] freshState).agentStatus = AgentStatus.failed :=
  ⟨(c9_failure_handling (CompilationExc.atAnalyzer (("db down").toList)) oracleOk none [] []
      freshState (("db down").toList) (Or.inl rfl)).1,
   (c9_failure_handling (CompilationExc.atAnalyzer (("db down").toList)) oracleOk none [] []
      freshState (("db down").toList) (Or.inl rfl)).2.2.2.2.1⟩

end Mexar
